import Mathlib

/-!
Shallow embedding of the open-automation-test-suites plugin2544 core
(bit-level protocol header engine, configuration validation pipeline and
peer/modifier-range resolver), with theorems checking the specification's
claims against the embedded code.

Bit-strings (Python `BinaryString`, strings over the characters 0/1) are
modelled as `List Bool`; byte buffers (`bytearray`) as `List Nat` whose
members are < 256; Python `int` as `Int` (or `Nat` where the value is a
length or an index that the code keeps non-negative); a Python operation
that can raise (`IndexError`, `ValueError`) returns `Option`/`Except`.
-/

namespace Plugin2544

/-- Embedding of `EnumActions` (model/m_protocol_segment.py line 79), the
enum class that types `ValueRange.action`. -/
inductive EnumActions where
  | INCR
  | DECR
  | RAND
deriving DecidableEq, Repr

/-- Embedding of `ModifierActionOption` (model/m_protocol_segment.py line
29), a second, distinct plain `Enum` class whose members carry the same
string values as `EnumActions`; `get_current_value` compares against its
members. -/
inductive ModifierActionOption where
  | INC
  | DEC
  | RANDOM
deriving DecidableEq, Repr

/-- The `.value` string of an `EnumActions` member. -/
def EnumActions.val : EnumActions → String
  | .INCR => "increment"
  | .DECR => "decrement"
  | .RAND => "random"

/-- The `.value` string of a `ModifierActionOption` member. -/
def ModifierActionOption.val : ModifierActionOption → String
  | .INC => "increment"
  | .DEC => "decrement"
  | .RANDOM => "random"

/-- Python `==` between an `EnumActions` member and a `ModifierActionOption`
member.  Both are plain `Enum` classes (no `str` mixin), so the default
identity-based `Enum.__eq__` applies and members of two different enum
classes never compare equal — even though the `.value` strings coincide
member for member.  The comparison therefore ignores its arguments and is
always false. -/
def enumCrossEq (_a : EnumActions) (_m : ModifierActionOption) : Bool := false

/-- Embedding of `ValueRange` (model/m_protocol_segment.py).  `current_count`
is a Python int that the class only ever resets to 0 or increments. -/
structure ValueRange where
  start_value : Int
  step_value : Int
  stop_value : Int
  action : EnumActions
  restart_for_each_port : Bool
  current_count : Int := 0
deriving DecidableEq, Repr

/-- Embedding of `ValueRange.reset`. -/
def ValueRange.reset (vr : ValueRange) : ValueRange :=
  { vr with current_count := 0 }

/-- Embedding of `ValueRange.get_current_value`.  The Python method mutates
`current_count` and returns the value; here it returns the value together
with the updated state.  The guards compare `self.action` (an `EnumActions`
member) against `ModifierActionOption.INC` / `.DEC` — members of a
*different* enum class — so both guards are always false (`enumCrossEq`)
and every call takes the `else` branch, drawing
`randint(min(boundary), max(boundary))`; the `rand` argument supplies that
draw, reduced into the inclusive range.  The increment/decrement bodies are
kept as the dead code they are in the source.  `current_count += 1` runs
after the branch, on every call. -/
def ValueRange.get_current_value (vr : ValueRange) (rand : Int) :
    Int × ValueRange :=
  let step1 : Int × ValueRange :=
    if enumCrossEq vr.action ModifierActionOption.INC then
      let current_value := vr.start_value + vr.current_count * vr.step_value
      if current_value > vr.stop_value then (vr.start_value, vr.reset)
      else (current_value, vr)
    else if enumCrossEq vr.action ModifierActionOption.DEC then
      let current_value := vr.start_value - vr.current_count * vr.step_value
      if current_value < vr.stop_value then (vr.start_value, vr.reset)
      else (current_value, vr)
    else
      let lo := min vr.start_value vr.stop_value
      let hi := max vr.start_value vr.stop_value
      (lo + rand.emod (hi - lo + 1), vr)
  (step1.1, { step1.2 with current_count := step1.2.current_count + 1 })

/-- Embedding of `HWModifier` (opaque hardware-modifier descriptor; carried but
never interpreted by the header engine).  `repeat_cnt` stands for the Python
field `repeat`, which is a Lean keyword. -/
structure HWModifier where
  start_value : Int
  step_value : Int
  stop_value : Int
  repeat_cnt : Nat
  action : EnumActions
  position : Nat
  mask : String
deriving DecidableEq, Repr

/-- Embedding of `SegmentField` (model/m_protocol_segment.py).  The Python
`BinaryString` value (a string over the characters 0/1) is a `List Bool`. -/
structure SegmentField where
  name : String
  value : List Bool
  bit_length : Nat
  bit_segment_position : Nat := 0
  hw_modifier : Option HWModifier := none
  value_range : Option ValueRange := none
deriving DecidableEq, Repr

/-- MSB-first binary digits of `n`, as Python `bin(n)[2:]` renders a
non-negative int (`bin(0)[2:] = "0"`, no leading zeros otherwise).  The first
argument is fuel; `natBitsAux (n+1) n` always has enough fuel because the
value halves at each step. -/
def natBitsAux : Nat → Nat → List Bool
  | 0, _ => []
  | fuel + 1, n => if n < 2 then [n == 1] else natBitsAux fuel (n / 2) ++ [n % 2 == 1]

/-- `bin(n)[2:]` for a non-negative int. -/
def natBits (n : Nat) : List Bool := natBitsAux (n + 1) n

/-- Python `str.zfill`: left-pad with zeros up to width `w` (never truncates). -/
def zfill (w : Nat) (l : List Bool) : List Bool :=
  List.replicate (w - l.length) false ++ l

/-- Embedding of `SegmentField.apply_value_range_if_exists`.  Python evaluates
`self.value[self.bit_segment_position + self.bit_length]` — a single-character
index, not a slice — which raises `IndexError` when the index is out of range;
`none` models that.  The generator value is rendered with
`bin(v)[2:].zfill(bit_length)`; the claims evaluate it at non-negative
generator values, where `natBits v.toNat` is that rendering.  Returns the
produced bit-string together with the field carrying the updated generator
state. -/
def SegmentField.apply_value_range_if_exists (f : SegmentField) (rand : Int) :
    Option (List Bool × SegmentField) :=
  match f.value_range with
  | none => some (f.value, f)
  | some vr =>
      let r := vr.get_current_value rand
      let value_range_str := zfill f.bit_length (natBits r.1.toNat)
      match f.value.get? (f.bit_segment_position + f.bit_length) with
      | none => none
      | some c =>
          some (f.value.take f.bit_segment_position ++ value_range_str ++ [c],
                { f with value_range := some r.2 })

/-- Embedding of `SegmentField.prepare` (delegates to
`apply_value_range_if_exists`). -/
def SegmentField.prepare (f : SegmentField) (rand : Int) :
    Option (List Bool × SegmentField) :=
  f.apply_value_range_if_exists rand

/-- The `ValueError` raised by `SegmentField.set_field_value` (the spec's
FieldLengthMismatch), carrying the offending length, the expected
`bit_length` and the field name, as the Python message does. -/
inductive FieldError where
  | FieldLengthMismatch (got : Nat) (expected : Nat) (field_name : String)
deriving DecidableEq, Repr

/-- Embedding of `SegmentField.set_field_value`. -/
def SegmentField.set_field_value (f : SegmentField) (new_value : List Bool) :
    Except FieldError SegmentField :=
  if new_value.length = f.bit_length then .ok { f with value := new_value }
  else .error (.FieldLengthMismatch new_value.length f.bit_length f.name)

/-- Embedding of `SegmentType`.  The Python enum carries many more protocol
tags (and 64 generated `RAW_n` members, collapsed here into one parameterized
case); `Segment.prepare` never reads the tag, so the exact tag set is
immaterial to the claims. -/
inductive SegmentType where
  | ETHERNET
  | VLAN
  | ARP
  | IP
  | IPV6
  | UDP
  | TCP
  | ICMP
  | RAW (n : Nat)
deriving DecidableEq, Repr

/-- Embedding of `Segment`.  `checksum_offset` is `Optional[int]`; the claims
address non-negative offsets, modelled as `Nat` (a negative Python offset
would index the bytearray from its end). -/
structure Segment where
  segment_type : SegmentType
  fields : List SegmentField
  checksum_offset : Option Nat := none
  is_field_src_value_all_zero : Bool := false
  is_field_dst_value_all_zero : Bool := false
deriving DecidableEq, Repr

/-- `int(s, 2)` on a 0/1 string: MSB-first binary value. -/
def bitsToNat (l : List Bool) : Nat :=
  l.foldl (fun n b => 2 * n + (if b then 1 else 0)) 0

/-- `n.to_bytes(len, byteorder='big')`: fixed-length big-endian bytes. -/
def natToBytes : Nat → Nat → List Nat
  | _, 0 => []
  | n, len + 1 => natToBytes (n / 256) len ++ [n % 256]

/-- Embedding of `bitstring_to_bytes`: `int(s, 2).to_bytes((len(s)+7)//8, 'big')`.
Python `int('', 2)` raises `ValueError`, modelled by `none`. -/
def bitstring_to_bytes (s : List Bool) : Option (List Nat) :=
  if s.isEmpty then none
  else some (natToBytes (bitsToNat s) ((s.length + 7) / 8))

/-- `data[i] = v` on a bytearray: fails with `IndexError` when `i` is out of
range. -/
def listSet? (l : List Nat) (i : Nat) (v : Nat) : Option (List Nat) :=
  if i < l.length then some (l.set i v) else none

/-- The word loop of `wrap_add_16`: `(data[i] << 8) + data[i+1]` for
`i = 0, 2, 4, …`; `data[i+1]` raises `IndexError` on an odd-length buffer. -/
def toWords : List Nat → Option (List Nat)
  | [] => some []
  | [_] => none
  | a :: b :: rest => (toWords rest).map (fun ws => (a * 256 + b) :: ws)

/-- One iteration of the running checksum: add the word, and if the sum
exceeds 0xFFFF fold the carry back in (`checksum = (1 + checksum) & 0xFFFF`). -/
def csum_step (checksum w : Nat) : Nat :=
  let s := checksum + w
  if s > 0xFFFF then (1 + s) % 0x10000 else s

/-- Embedding of `wrap_add_16` (model/m_protocol_segment.py): zero the two
bytes at `offset_num`, sum the big-endian 16-bit words folding carries, and
write the complement back.  Python's `0xFF + 1 + (~x)` is `255 - x` for
`0 ≤ x ≤ 255`, so the written bytes are `255 - (checksum >> 8)` and
`255 - (checksum & 0xFF)`. -/
def wrap_add_16 (data : List Nat) (offset_num : Nat) : Option (List Nat) := do
  let d0 ← listSet? data offset_num 0
  let d1 ← listSet? d0 (offset_num + 1) 0
  let ws ← toWords d1
  let checksum := ws.foldl csum_step 0
  let r0 ← listSet? d1 offset_num (0xFF - checksum / 256)
  listSet? r0 (offset_num + 1) (0xFF - checksum % 256)

/-- The 16-bit Internet checksum exactly as the spec describes the recompute
step: sum the big-endian 16-bit words with carry fold, then take the one's
complement.  Used to state the round-trip law. -/
def internet_checksum (data : List Nat) : Option Nat :=
  (toWords data).map (fun ws => 0xFFFF - ws.foldl csum_step 0)

/-- `''.join(f.prepare() for f in self.fields)`: concatenate each field's
prepared bit-string left to right, threading the generator-state updates. -/
def prepareFields (rand : Int) : List SegmentField → Option (List Bool × List SegmentField)
  | [] => some ([], [])
  | f :: fs =>
      match f.prepare rand with
      | none => none
      | some (bits, f₁) =>
          match prepareFields rand fs with
          | none => none
          | some (rest, fs₁) => some (bits ++ rest, f₁ :: fs₁)

/-- The serialization prefix of `Segment.prepare`: join the fields' prepared
bit-strings and convert to bytes. -/
def serialize_fields (s : Segment) (rand : Int) : Option (List Nat) :=
  match prepareFields rand s.fields with
  | none => none
  | some (bits, _) => bitstring_to_bytes bits

/-- Embedding of `Segment.prepare`.  Python's `if self.checksum_offset:` is
falsy both for `None` and for `0`, so a zero offset skips the checksum
fix-up entirely. -/
def Segment.prepare (s : Segment) (rand : Int) : Option (List Nat) :=
  match serialize_fields s rand with
  | none => none
  | some result =>
      match s.checksum_offset with
      | none => some result
      | some k => if k = 0 then some result else wrap_add_16 result k

/-- A bound field at the failing input: 4 bits of value, `bit_length` 4,
splice position 0, increment generator 1..5. -/
def fldVr4 : SegmentField :=
  { name := "vr4", value := List.replicate 4 false, bit_length := 4,
    bit_segment_position := 0,
    value_range := some { start_value := 1, step_value := 1, stop_value := 5,
                          action := .INCR, restart_for_each_port := false } }

/-- The same bound field over a 6-bit stored value, so the single-character
tail index stays in range and the length change is observable. -/
def fldVr6 : SegmentField :=
  { name := "vr6", value := List.replicate 6 false, bit_length := 4,
    bit_segment_position := 0,
    value_range := some { start_value := 1, step_value := 1, stop_value := 5,
                          action := .INCR, restart_for_each_port := false } }

/-- A plain 16-bit field (no generator) whose value is all ones. -/
def fld16 : SegmentField :=
  { name := "plain16", value := List.replicate 16 true, bit_length := 16 }

/-- An unbound 2-bit field used to exercise `set_field_value`. -/
def fldDemo : SegmentField :=
  { name := "demo", value := [false, false], bit_length := 2 }

/-- A 32-bit unbound field whose serialized bytes are 0x12 0xAA 0xBB 0x34. -/
def fld32 : SegmentField :=
  { name := "word32",
    value := [false, false, false, true, false, false, true, false,
              true, false, true, false, true, false, true, false,
              true, false, true, true, true, false, true, true,
              false, false, true, true, false, true, false, false],
    bit_length := 32 }

/-- A segment carrying `fld32` with the odd checksum offset 1. -/
def segOdd : Segment :=
  { segment_type := .IP, fields := [fld32], checksum_offset := some 1 }

/-- A segment carrying `fld32` with the even checksum offset 2. -/
def segEven : Segment :=
  { segment_type := .IP, fields := [fld32], checksum_offset := some 2 }

/-- A segment with checksum offset 0 (falsy in Python). -/
def segZero : Segment :=
  { segment_type := .IP, fields := [fld16], checksum_offset := some 0 }

/-- State of a `ValueRange` after `n` successive `get_current_value` calls. -/
def vrAfter (vr : ValueRange) : Nat → ValueRange
  | 0 => vr
  | n + 1 => ((vrAfter vr n).get_current_value 0).2

/-- Value returned by the `(n+1)`-st successive call (0-indexed: `vrValueAt vr 0`
is the first call's value). -/
def vrValueAt (vr : ValueRange) (n : Nat) : Int :=
  ((vrAfter vr n).get_current_value 0).1

/-- The spec's worked increment example: start=0, step=1, stop=2. -/
def vrDemo : ValueRange :=
  { start_value := 0, step_value := 1, stop_value := 2,
    action := .INCR, restart_for_each_port := false }

/-- Stands for a `PortStruct` as seen by `Properties.register_peer`: `pid`
models Python object identity (list membership compares objects), `index`
is the peer's `properties.test_port_index`. -/
structure Peer where
  pid : Nat
  index : Int
deriving DecidableEq, Repr

/-- Embedding of `Properties` (plugin/structure.py); the sets of ARP/NDP
trunk data are omitted (nothing in the claims reads them). -/
structure Properties where
  num_modifiersL2 : Int := 1
  dest_port_count : Int := 0
  test_port_index : Int := 0
  high_dest_port_count : Int := 0
  low_dest_port_count : Int := 0
  lowest_dest_port_index : Int := -1
  highest_dest_port_index : Int := -1
  peers : List Peer := []
deriving DecidableEq, Repr

/-- Embedding of `Properties.get_modifier_range`. -/
def Properties.get_modifier_range (p : Properties) (stream_id : Int) : Int × Int :=
  if stream_id = 0 then
    if p.num_modifiersL2 = 2 then
      (p.lowest_dest_port_index, p.test_port_index - 1)
    else if p.dest_port_count > 0 then
      (p.lowest_dest_port_index, p.highest_dest_port_index)
    else
      (p.test_port_index, p.test_port_index)
  else
    (p.test_port_index + 1, p.highest_dest_port_index)

/-- Embedding of `Properties.register_peer`.  Note that the membership test
guards only the list append; the aggregate updates below it run on every
call with a non-self peer, including duplicate registrations. -/
def Properties.register_peer (p : Properties) (peer : Peer) : Properties :=
  let p := if peer ∈ p.peers then p else { p with peers := p.peers ++ [peer] }
  if peer.index = p.test_port_index then p
  else
    let p := { p with dest_port_count := p.dest_port_count + 1 }
    let p :=
      if peer.index < p.test_port_index then
        { p with low_dest_port_count := p.low_dest_port_count + 1 }
      else if peer.index > p.test_port_index then
        { p with high_dest_port_count := p.high_dest_port_count + 1 }
      else p
    let nm : Int := if p.low_dest_port_count > 0 ∧ p.high_dest_port_count > 0 then 2 else 1
    let p := { p with num_modifiersL2 := nm }
    let lo := if p.lowest_dest_port_index = -1 then peer.index else min p.lowest_dest_port_index peer.index
    let p := { p with lowest_dest_port_index := lo }
    let hi := if p.highest_dest_port_index = -1 then peer.index else max p.highest_dest_port_index peer.index
    { p with highest_dest_port_index := hi }

/-- Register a list of peers left to right (the per-port registration pass). -/
def register_peers (p : Properties) (l : List Peer) : Properties :=
  l.foldl Properties.register_peer p

/-- The six numeric aggregates of a `Properties` (everything
`register_peer` maintains besides the peer list). -/
structure AggState where
  num : Int
  dest : Int
  low : Int
  high : Int
  lowest : Int
  highest : Int
deriving DecidableEq, Repr

/-- Project the numeric aggregates out of a `Properties`. -/
def aggsOf (p : Properties) : AggState :=
  ⟨p.num_modifiersL2, p.dest_port_count, p.low_dest_port_count,
   p.high_dest_port_count, p.lowest_dest_port_index, p.highest_dest_port_index⟩

/-- The effect of one `register_peer` call on the aggregates alone, as a
function of the registering port's own index `t` and the peer's index `i`
(the peer list influences nothing here). -/
def regAgg (t : Int) (s : AggState) (i : Int) : AggState :=
  if i = t then s
  else
    let dest := s.dest + 1
    let low := if i < t then s.low + 1 else s.low
    let high := if i > t then s.high + 1 else s.high
    let num : Int := if low > 0 ∧ high > 0 then 2 else 1
    let lowest := if s.lowest = -1 then i else min s.lowest i
    let highest := if s.highest = -1 then i else max s.highest i
    ⟨num, dest, low, high, lowest, highest⟩

/-- Embedding of `TrafficDirection` (referenced by the validators; the enum
itself lives in `utils/constants.py`, whose two directional members the spec
names east-to-west and west-to-east). -/
inductive TrafficDirection where
  | EAST_TO_WEST
  | WEST_TO_EAST
deriving DecidableEq, Repr

/-- Embedding of `PortGroup` {East, West, Undefined}. -/
inductive PortGroup where
  | EAST
  | WEST
  | UNDEFINED
deriving DecidableEq, Repr

/-- Modelled from the spec: the topology enum {mesh, pair-based, other
configured patterns} of `utils/constants.py` (not among the provided
sources); only `is_mesh_topology` / `is_pair_topology` are consulted by the
embedded validators. -/
inductive TestTopology where
  | PAIRS
  | BLOCKS
  | MESH
deriving DecidableEq, Repr

/-- `TestTopology.is_mesh_topology`. -/
def TestTopology.is_mesh_topology : TestTopology → Bool
  | .MESH => true
  | _ => false

/-- `TestTopology.is_pair_topology`. -/
def TestTopology.is_pair_topology : TestTopology → Bool
  | .PAIRS => true
  | _ => false

/-- `PortGroup.is_east`. -/
def PortGroup.is_east : PortGroup → Bool
  | .EAST => true
  | _ => false

/-- `PortGroup.is_west`. -/
def PortGroup.is_west : PortGroup → Bool
  | .WEST => true
  | _ => false

/-- The slice of `TestConfiguration` the embedded validators read. -/
structure TestConfiguration where
  topology : TestTopology
  direction : TrafficDirection
deriving DecidableEq, Repr

/-- The slice of `PortConfiguration` the embedded validators read and write:
slot names, group and the two role flags (default true). -/
structure PortConfiguration where
  port_config_slot : String := ""
  peer_config_slot : String
  port_group : PortGroup
  is_rx_port : Bool := true
  is_tx_port : Bool := true
deriving DecidableEq, Repr

/-- The per-port body of `PluginModel2544.set_ports_rx_tx_type`
(dataset.py): default the slot name to the dict key when empty, skip looped
ports, otherwise clear one role flag according to direction and group. -/
def set_rx_tx_one (direction : TrafficDirection) (config_index : String)
    (port : PortConfiguration) : PortConfiguration :=
  let port :=
    if port.port_config_slot = "" then
      { port with port_config_slot := config_index }
    else port
  if port.port_config_slot = port.peer_config_slot then port
  else
    match direction with
    | .EAST_TO_WEST =>
        if port.port_group.is_east then { port with is_rx_port := false }
        else if port.port_group.is_west then { port with is_tx_port := false }
        else port
    | .WEST_TO_EAST =>
        if port.port_group.is_east then { port with is_tx_port := false }
        else if port.port_group.is_west then { port with is_rx_port := false }
        else port

/-- Embedding of `PluginModel2544.set_ports_rx_tx_type`: the validator reads
only `test_configuration.direction` (the topology in `tc` is never
consulted) and rewrites each entry of the ports dict, modelled as an
association list in dict iteration order. -/
def set_ports_rx_tx_type (tc : TestConfiguration)
    (ports : List (String × PortConfiguration)) : List (String × PortConfiguration) :=
  ports.map (fun kv => (kv.1, set_rx_tx_one tc.direction kv.1 kv.2))

/-- The typed errors of the peer checks. -/
inductive PeerError where
  | PortPeerNeeded
  | PortPeerInconsistent
deriving DecidableEq, Repr

/-- Python dict membership/indexing `peer_config_slot in ports_configuration`
and `ports_configuration[peer_config_slot]` over the association list. -/
def findPort (k : String) : List (String × PortConfiguration) → Option PortConfiguration
  | [] => none
  | kv :: rest => if k = kv.1 then some kv.2 else findPort k rest

/-- Embedding of `PluginModel2544.check_port_peer` (dataset.py). -/
def check_port_peer (port_config : PortConfiguration)
    (ports_configuration : List (String × PortConfiguration)) : Except PeerError Unit :=
  if port_config.peer_config_slot = "" then .error .PortPeerNeeded
  else
    match findPort port_config.peer_config_slot ports_configuration with
    | none => .error .PortPeerInconsistent
    | some c =>
        if c.peer_config_slot ≠ port_config.port_config_slot then
          .error .PortPeerInconsistent
        else .ok ()

/-- The peer-check portion of `check_port_groups_and_peers`: when the
topology uses explicit pairing, `check_port_peer` runs for every port in
dict order, aborting at the first error. -/
def check_port_peers (all : List (String × PortConfiguration)) :
    List (String × PortConfiguration) → Except PeerError Unit
  | [] => .ok ()
  | kv :: rest =>
      match check_port_peer kv.2 all with
      | .error e => .error e
      | .ok _ => check_port_peers all rest

/-- The success condition of one port's peer check: a non-empty peer slot
naming a configured port whose own peer slot names this port back. -/
def peerOk (c : PortConfiguration) (all : List (String × PortConfiguration)) : Prop :=
  c.peer_config_slot ≠ "" ∧
    ∃ c₁, findPort c.peer_config_slot all = some c₁ ∧
      c₁.peer_config_slot = c.port_config_slot

/-- The spec's modifier-range example: own index 3, lowest 1, highest 9,
both direction counts non-zero. -/
def propsDemo : Properties :=
  { num_modifiersL2 := 2, dest_port_count := 3, test_port_index := 3,
    high_dest_port_count := 2, low_dest_port_count := 1,
    lowest_dest_port_index := 1, highest_dest_port_index := 9 }

/-- A fresh `Properties` for a port with index 3. -/
def props3 : Properties := { test_port_index := 3 }

/-- A peer port with index 5. -/
def peer5 : Peer := ⟨0, 5⟩

/-- A peer port with index -1 (colliding with the lowest/highest sentinel). -/
def peerNeg : Peer := ⟨10, -1⟩

/-- Distinct peers carrying the spec's example indices {5, 1, 9}. -/
def peers519 : List Peer := [⟨0, 5⟩, ⟨1, 1⟩, ⟨2, 9⟩]

/-- An East-group port whose slot differs from its peer slot. -/
def eastPort : PortConfiguration :=
  { port_config_slot := "A", peer_config_slot := "B", port_group := .EAST }

/-- Port B pairing back to A. -/
def westPortBA : PortConfiguration :=
  { port_config_slot := "B", peer_config_slot := "A", port_group := .WEST }

/-- Port B pairing to a third port C instead of back to A. -/
def westPortBC : PortConfiguration :=
  { port_config_slot := "B", peer_config_slot := "C", port_group := .WEST }

/-- Port C pairing to B. -/
def portCB : PortConfiguration :=
  { port_config_slot := "C", peer_config_slot := "B", port_group := .WEST }

/-- Two ports naming each other (the passing scenario). -/
def pairAB : List (String × PortConfiguration) :=
  [("A", eastPort), ("B", westPortBA)]

/-- A names B, but B names a third port C (the failing scenario). -/
def tripleABC : List (String × PortConfiguration) :=
  [("A", eastPort), ("B", westPortBC), ("C", portCB)]

theorem vrDemo_after_rand0 (n : Nat) :
    vrAfter vrDemo n = { vrDemo with current_count := (n : Int) } := by
  induction n with
  | zero => rfl
  | succ m ih =>
      show ((vrAfter vrDemo m).get_current_value 0).2 = _
      rw [ih]
      simp only [ValueRange.get_current_value, enumCrossEq, Bool.false_eq_true,
        if_false, ValueRange.mk.injEq, vrDemo, true_and]
      push_cast
      ring

/-- C1 (code bug, evaluated at the failing input): the claim describes the
intended increment semantics, but get_current_value compares the
`EnumActions`-typed action field against members of the distinct enum class
`ModifierActionOption`; the two classes share their `.value` strings member
for member, yet members of different plain Enum classes never compare
equal, so the increment branch is dead code and every call — also for
action = increment — draws randint(min(start,stop), max(start,stop)) and
increments the counter.  With start=0, step=1, stop=2 the first call can
return 1 (draw 1) instead of the claimed start value 0, and under the
all-zeros draw stream every call returns 0 — not the claimed 0, 1, 2
cycle with period 3. -/
theorem C1_increment_dead_code :
    EnumActions.INCR.val = ModifierActionOption.INC.val ∧
    (∀ (vr : ValueRange) (rand : Int),
      enumCrossEq vr.action ModifierActionOption.INC = false ∧
      vr.get_current_value rand =
        (min vr.start_value vr.stop_value +
          rand.emod (max vr.start_value vr.stop_value -
            min vr.start_value vr.stop_value + 1),
         { vr with current_count := vr.current_count + 1 })) ∧
    (vrDemo.get_current_value 1).1 = 1 ∧
    (∀ n : Nat, vrValueAt vrDemo n = 0) := by
  refine ⟨rfl, fun vr rand => ⟨rfl, rfl⟩, by decide, ?_⟩
  intro n
  unfold vrValueAt
  rw [vrDemo_after_rand0]
  rfl

/-- C9: For every SegmentField f and bit-string v, set_field_value(v)
succeeds and overwrites the stored value with v iff len(v) = bit_length;
otherwise it raises the field-length-mismatch error (carrying the offending
and expected lengths) and no field is modified. -/
theorem C9_set_field_value (f : SegmentField) (v : List Bool) :
    (f.set_field_value v = .ok { f with value := v } ↔ v.length = f.bit_length) ∧
    ((∃ g, f.set_field_value v = .ok g) ↔ v.length = f.bit_length) ∧
    (v.length ≠ f.bit_length →
      f.set_field_value v = .error (.FieldLengthMismatch v.length f.bit_length f.name)) := by
  unfold SegmentField.set_field_value
  split_ifs with h <;> simp [h]

/-- Witness for C9: both branches at a concrete field. -/
theorem C9_set_field_value_witness :
    fldDemo.set_field_value [true, false] = .ok { fldDemo with value := [true, false] } ∧
    fldDemo.set_field_value [true] = .error (.FieldLengthMismatch 1 2 "demo") := by
  refine ⟨(C9_set_field_value fldDemo [true, false]).1.mpr (by decide), ?_⟩
  have h := (C9_set_field_value fldDemo [true]).2.2 (by decide)
  exact h

/-- C2 (code bug, evaluated at the failing input): the splice in
apply_value_range_if_exists reads `value[bit_segment_position + bit_length]`
as a single-character index instead of a tail slice, so for a bound field
whose value is exactly bit_segment_position + bit_length bits long the call
raises IndexError (here: 4-bit value, position 0, bit_length 4), and for a
longer value the result keeps only one tail character (6-bit stored value
gives a 5-bit result), contradicting the claimed same-length replacement;
the unbound branch does return the stored value unchanged. -/
theorem C2_prepare_splice_bug :
    fldVr4.prepare 0 = none ∧
    (fldVr6.prepare 0).map (fun r => r.1.length) = some 5 ∧
    fldVr6.value.length = 6 ∧
    fld16.prepare 0 = some (fld16.value, fld16) := by
  refine ⟨rfl, rfl, rfl, rfl⟩

/-- C10: For every Segment constructed with checksum_offset = 0, prepare()
returns the concatenated field bytes with no checksum fix-up: offset 0 is
treated exactly like an absent checksum_offset. -/
theorem C10_zero_offset_skips_checksum (st : SegmentType) (fs : List SegmentField)
    (src dst : Bool) (rand : Int) :
    Segment.prepare ⟨st, fs, some 0, src, dst⟩ rand =
      Segment.prepare ⟨st, fs, none, src, dst⟩ rand ∧
    (∀ B, serialize_fields ⟨st, fs, some 0, src, dst⟩ rand = some B →
      Segment.prepare ⟨st, fs, some 0, src, dst⟩ rand = some B) := by
  unfold Segment.prepare
  have he : serialize_fields ⟨st, fs, none, src, dst⟩ rand =
      serialize_fields ⟨st, fs, some 0, src, dst⟩ rand := rfl
  rw [he]
  cases hs : serialize_fields ⟨st, fs, some 0, src, dst⟩ rand with
  | none => exact ⟨rfl, fun B hB => nomatch hB⟩
  | some B => exact ⟨rfl, fun B₁ hB₁ => by cases hB₁; rfl⟩

/-- Witness for C10: the concrete zero-offset segment serializes to its
plain field bytes (0xFF 0xFF), no fix-up applied. -/
theorem C10_zero_offset_skips_checksum_witness :
    Segment.prepare segZero 0 = some [255, 255] :=
  (C10_zero_offset_skips_checksum .IP [fld16] false false 0).2 [255, 255] rfl

/-- C6: get_modifier_range(stream_id) returns (lowest, own-1) when
stream_id = 0 and num_modifiersL2 = 2; (lowest, highest) when stream_id = 0,
num_modifiersL2 ≠ 2 and dest_port_count > 0; (own, own) when stream_id = 0
and neither holds; and (own+1, highest) when stream_id ≠ 0 — on the demo
port (index 3, num=2, lowest=1, highest=9): range(0) = (1,2), range(1) = (4,9). -/
theorem C6_get_modifier_range (p : Properties) (sid : Int) :
    (sid = 0 → p.num_modifiersL2 = 2 →
      p.get_modifier_range sid = (p.lowest_dest_port_index, p.test_port_index - 1)) ∧
    (sid = 0 → p.num_modifiersL2 ≠ 2 → p.dest_port_count > 0 →
      p.get_modifier_range sid = (p.lowest_dest_port_index, p.highest_dest_port_index)) ∧
    (sid = 0 → p.num_modifiersL2 ≠ 2 → ¬ p.dest_port_count > 0 →
      p.get_modifier_range sid = (p.test_port_index, p.test_port_index)) ∧
    (sid ≠ 0 →
      p.get_modifier_range sid = (p.test_port_index + 1, p.highest_dest_port_index)) ∧
    propsDemo.get_modifier_range 0 = (1, 2) ∧
    propsDemo.get_modifier_range 1 = (4, 9) := by
  refine ⟨?_, ?_, ?_, ?_, by decide, by decide⟩ <;>
    (intros; simp_all [Properties.get_modifier_range])

/-- Witness for C6: the theorem applied at the demo port and stream 0. -/
theorem C6_get_modifier_range_witness :
    propsDemo.get_modifier_range 0 = (propsDemo.lowest_dest_port_index, propsDemo.test_port_index - 1) :=
  (C6_get_modifier_range propsDemo 0).1 rfl (by decide)

/-- C4 counterexample: registering peer (index 5) twice on a fresh port with
index 3 is not a no-op — the peer list is unchanged but dest_port_count
double-counts to 2 (the membership test guards only the list append). -/
theorem C4_register_peer_counterexample :
    peer5 ∈ (props3.register_peer peer5).peers ∧
    (props3.register_peer peer5).register_peer peer5 ≠ props3.register_peer peer5 ∧
    ((props3.register_peer peer5).register_peer peer5).peers =
      (props3.register_peer peer5).peers ∧
    ((props3.register_peer peer5).register_peer peer5).dest_port_count = 2 ∧
    (props3.register_peer peer5).dest_port_count = 1 := by decide

/-- C4 (amended): register_peer leaves the peer list unchanged on duplicate
registration but still re-applies the aggregate updates whenever the peer's
index differs from the port's own (so duplicate registration is not a
no-op); when the peer's index equals the port's own index, the call records
the peer in the peer list and leaves every distance aggregate unchanged. -/
theorem C4_register_peer_amended (p : Properties) (q : Peer) :
    (q ∈ p.peers → (p.register_peer q).peers = p.peers) ∧
    (q ∉ p.peers → (p.register_peer q).peers = p.peers ++ [q]) ∧
    (q.index = p.test_port_index →
      aggsOf (p.register_peer q) = aggsOf p ∧ q ∈ (p.register_peer q).peers) ∧
    (q.index ≠ p.test_port_index →
      (p.register_peer q).dest_port_count = p.dest_port_count + 1) := by
  unfold Properties.register_peer
  by_cases hm : q ∈ p.peers <;> by_cases hi : q.index = p.test_port_index <;>
    simp [hm, hi, aggsOf] <;> split_ifs <;> simp

/-- Witness for C4: duplicate registration at the concrete port — the list
stays, the count still increments. -/
theorem C4_register_peer_amended_witness :
    ((props3.register_peer peer5).register_peer peer5).peers =
      (props3.register_peer peer5).peers ∧
    ((props3.register_peer peer5).register_peer peer5).dest_port_count =
      (props3.register_peer peer5).dest_port_count + 1 :=
  ⟨(C4_register_peer_amended (props3.register_peer peer5) peer5).1 (by decide),
   (C4_register_peer_amended (props3.register_peer peer5) peer5).2.2.2 (by decide)⟩

/-- C5 counterexample: under mesh topology, direction EAST_TO_WEST and a
non-loop East-group port, set_ports_rx_tx_type clears is_rx_port — the
validator never consults the topology, so mesh does not protect role flags. -/
theorem C5_mesh_alters_roles_counterexample :
    eastPort.is_rx_port = true ∧
    (set_ports_rx_tx_type ⟨.MESH, .EAST_TO_WEST⟩ [("A", eastPort)]).map
        (fun kv => kv.2.is_rx_port) = [false] := by decide

/-- C5 (amended): role assignment depends only on the direction, the group
and the loop test — the topology (mesh included) is never consulted, so the
same clearing happens under every topology: after defaulting the slot name,
a port whose slot equals its peer slot keeps both flags; otherwise
EAST_TO_WEST clears is_rx on East ports and is_tx on West ports,
WEST_TO_EAST clears is_tx on East ports and is_rx on West ports, and
Undefined-group ports are untouched. -/
theorem C5_rx_tx_roles (topo₁ topo₂ : TestTopology) (d : TrafficDirection)
    (ports : List (String × PortConfiguration)) (k : String) (port : PortConfiguration) :
    (set_ports_rx_tx_type ⟨topo₁, d⟩ ports = set_ports_rx_tx_type ⟨topo₂, d⟩ ports) ∧
    (let q := if port.port_config_slot = "" then { port with port_config_slot := k } else port
     (q.port_config_slot = q.peer_config_slot → set_rx_tx_one d k port = q) ∧
     (q.port_config_slot ≠ q.peer_config_slot → port.port_group = .EAST →
       set_rx_tx_one .EAST_TO_WEST k port = { q with is_rx_port := false } ∧
       set_rx_tx_one .WEST_TO_EAST k port = { q with is_tx_port := false }) ∧
     (q.port_config_slot ≠ q.peer_config_slot → port.port_group = .WEST →
       set_rx_tx_one .EAST_TO_WEST k port = { q with is_tx_port := false } ∧
       set_rx_tx_one .WEST_TO_EAST k port = { q with is_rx_port := false }) ∧
     (q.port_config_slot ≠ q.peer_config_slot → port.port_group = .UNDEFINED →
       set_rx_tx_one d k port = q)) := by
  refine ⟨rfl, ?_, ?_, ?_, ?_⟩
  · intro h₁
    unfold set_rx_tx_one
    cases d <;> (split_ifs at h₁ ⊢ <;> simp_all)
  · intro h₁ h₂
    unfold set_rx_tx_one
    split_ifs at h₁ ⊢ <;> simp_all [PortGroup.is_east, PortGroup.is_west, h₂]
  · intro h₁ h₂
    unfold set_rx_tx_one
    split_ifs at h₁ ⊢ <;> simp_all [PortGroup.is_east, PortGroup.is_west, h₂]
  · intro h₁ h₂
    unfold set_rx_tx_one
    cases d <;>
      (split_ifs at h₁ ⊢ <;> simp_all [PortGroup.is_east, PortGroup.is_west, h₂])

/-- Witness for C5: the concrete East-group port under both directions, and
topology-independence at a concrete ports list. -/
theorem C5_rx_tx_roles_witness :
    set_ports_rx_tx_type ⟨.MESH, .EAST_TO_WEST⟩ pairAB =
      set_ports_rx_tx_type ⟨.PAIRS, .EAST_TO_WEST⟩ pairAB ∧
    set_rx_tx_one .EAST_TO_WEST "A" eastPort = { eastPort with is_rx_port := false } := by
  refine ⟨(C5_rx_tx_roles .MESH .PAIRS .EAST_TO_WEST pairAB "A" eastPort).1, ?_⟩
  have h := ((C5_rx_tx_roles .MESH .PAIRS .EAST_TO_WEST pairAB "A" eastPort).2.2.1
    (by decide) (by decide)).1
  exact h

/-- C8: In a peer-paired topology the per-port peer checks succeed exactly
when every port's peer slot is non-empty and symmetric (names a configured
port whose own peer slot names it back); an empty slot yields PortPeerNeeded,
a missing or non-symmetric peer yields PortPeerInconsistent; concretely, two
ports naming each other pass, and B naming a third port C fails with
PortPeerInconsistent. -/
theorem C8_port_peer_checks :
    (∀ (all sub : List (String × PortConfiguration)),
      check_port_peers all sub = .ok () ↔ ∀ kv ∈ sub, peerOk kv.2 all) ∧
    (∀ (c : PortConfiguration) (all : List (String × PortConfiguration)),
      check_port_peer c all = .error .PortPeerNeeded ↔ c.peer_config_slot = "") ∧
    (∀ (c : PortConfiguration) (all : List (String × PortConfiguration)),
      check_port_peer c all = .error .PortPeerInconsistent ↔
        c.peer_config_slot ≠ "" ∧
          ∀ c₁, findPort c.peer_config_slot all = some c₁ →
            c₁.peer_config_slot ≠ c.port_config_slot) ∧
    check_port_peers pairAB pairAB = .ok () ∧
    check_port_peers tripleABC tripleABC = .error .PortPeerInconsistent := by
  have hone : ∀ (c : PortConfiguration) (all : List (String × PortConfiguration)),
      check_port_peer c all = .ok () ↔ peerOk c all := by
    intro c all
    unfold check_port_peer peerOk
    split_ifs with h₁
    · simp [h₁]
    · cases hf : findPort c.peer_config_slot all with
      | none => simp [h₁, hf]
      | some c₁ =>
          by_cases h₂ : c₁.peer_config_slot = c.port_config_slot <;>
            simp [h₁, hf, h₂]
  refine ⟨?_, ?_, ?_, rfl, rfl⟩
  · intro all sub
    induction sub with
    | nil => simp [check_port_peers]
    | cons kv rest ih =>
        unfold check_port_peers
        cases hc : check_port_peer kv.2 all with
        | error e =>
            have hnot : ¬ peerOk kv.2 all := by
              intro h
              have h₂ := (hone kv.2 all).mpr h
              rw [h₂] at hc
              cases hc
            exact ⟨(fun h => nomatch h),
              (fun h => (hnot (h kv (List.mem_cons_self _ _))).elim)⟩
        | ok u => cases u; simp [ih, (hone kv.2 all).mp hc]
  · intro c all
    unfold check_port_peer
    split_ifs with h₁
    · simp [h₁]
    · cases hf : findPort c.peer_config_slot all with
      | none => simp [h₁]
      | some c₁ => by_cases h₂ : c₁.peer_config_slot = c.port_config_slot <;> simp [h₁, h₂]
  · intro c all
    unfold check_port_peer
    split_ifs with h₁
    · simp [h₁]
    · cases hf : findPort c.peer_config_slot all with
      | none => simp [h₁, hf]
      | some c₁ =>
          by_cases h₂ : c₁.peer_config_slot = c.port_config_slot <;> simp [h₁, hf, h₂]

/-- Witness for C8: the success iff applied at the concrete symmetric pair. -/
theorem C8_port_peer_checks_witness :
    ∀ kv ∈ pairAB, peerOk kv.2 pairAB :=
  (C8_port_peer_checks.1 pairAB pairAB).mp rfl

theorem register_peer_aggs (p : Properties) (q : Peer) :
    aggsOf (p.register_peer q) = regAgg p.test_port_index (aggsOf p) q.index ∧
    (p.register_peer q).test_port_index = p.test_port_index := by
  unfold Properties.register_peer regAgg
  by_cases hm : q ∈ p.peers <;>
    by_cases hi : q.index = p.test_port_index <;>
      by_cases h₂ : q.index < p.test_port_index <;>
        by_cases h₃ : q.index > p.test_port_index <;>
          simp only [hm, hi, h₂, h₃, if_true, if_false, ite_true, ite_false,
            not_false_iff, not_true, aggsOf] <;>
            first
            | exact ⟨trivial, trivial⟩
            | exact absurd h₃ (by omega)

theorem regAgg_comm (t : Int) (s : AggState) (i j : Int) (hi : 0 ≤ i) (hj : 0 ≤ j) :
    regAgg t (regAgg t s i) j = regAgg t (regAgg t s j) i := by
  unfold regAgg
  by_cases h₁ : i = t <;> by_cases h₂ : j = t <;> (try simp [h₁, h₂]) <;> try rfl
  all_goals
    refine ⟨?_, ?_, ?_, ?_, ?_⟩ <;>
      ((try simp only [inf_eq_min, sup_eq_max, min_def, max_def]) <;>
        (try split_ifs) <;> omega)

theorem regAgg_fold_perm (t : Int) {l₁ l₂ : List Int} (hp : l₁.Perm l₂) :
    (∀ x ∈ l₁, (0:Int) ≤ x) →
    ∀ s : AggState, l₁.foldl (regAgg t) s = l₂.foldl (regAgg t) s := by
  induction hp with
  | nil => intro _ s; rfl
  | cons x hp ih =>
      intro hpos s
      simp only [List.foldl]
      exact ih (fun y hy => hpos y (List.mem_cons_of_mem _ hy)) _
  | swap x y l =>
      intro hpos s
      simp only [List.foldl]
      rw [regAgg_comm t s y x (hpos y (by simp)) (hpos x (by simp))]
  | trans h₁ h₂ ih₁ ih₂ =>
      intro hpos s
      rw [ih₁ hpos s, ih₂ (fun y hy => hpos y (h₁.mem_iff.mpr hy)) s]

theorem register_peers_aggs (l : List Peer) : ∀ p : Properties,
    aggsOf (register_peers p l) =
      (l.map Peer.index).foldl (regAgg p.test_port_index) (aggsOf p) ∧
    (register_peers p l).test_port_index = p.test_port_index := by
  induction l with
  | nil => intro p; exact ⟨rfl, rfl⟩
  | cons q qs ih =>
      intro p
      have hf := register_peer_aggs p q
      have hq := ih (p.register_peer q)
      constructor
      · show aggsOf (register_peers (p.register_peer q) qs) = _
        rw [hq.1, hf.2, hf.1]
        rfl
      · show (register_peers (p.register_peer q) qs).test_port_index = _
        rw [hq.2, hf.2]

/-- C7 counterexample: the aggregates are not order-independent for every
set of distinct peers — a peer whose index is -1 collides with the unset
sentinel of lowest/highest_dest_port_index, so registering {index -1,
index 5} on a port with index 3 in the two orders yields different lowest
indices (5 versus -1). -/
theorem C7_register_order_counterexample :
    [peerNeg, peer5].Perm [peer5, peerNeg] ∧ peerNeg ≠ peer5 ∧
    (register_peers props3 [peerNeg, peer5]).lowest_dest_port_index = 5 ∧
    (register_peers props3 [peer5, peerNeg]).lowest_dest_port_index = -1 ∧
    aggsOf (register_peers props3 [peerNeg, peer5]) ≠
      aggsOf (register_peers props3 [peer5, peerNeg]) := by
  refine ⟨List.Perm.swap _ _ _, by decide, by decide, by decide, by decide⟩

/-- C7 (amended): for every set of distinct peers with non-negative
test-port indices, registering them in any order on the same Properties
yields the same num_modifiersL2, dest_port_count, low/high counts and
lowest/highest indices; in particular every ordering of peers with indices
{5, 1, 9} on a fresh port with index 3 yields num=2, dest=3, low=1, high=2,
lowest=1, highest=9. -/
theorem C7_register_order_independent :
    (∀ (p : Properties) (l₁ l₂ : List Peer), l₁.Perm l₂ →
      l₁.Pairwise (· ≠ ·) → (∀ q ∈ l₁, (0:Int) ≤ q.index) →
      aggsOf (register_peers p l₁) = aggsOf (register_peers p l₂)) ∧
    (∀ l : List Peer, l.Perm peers519 →
      aggsOf (register_peers props3 l) = ⟨2, 3, 1, 2, 1, 9⟩) := by
  have main : ∀ (p : Properties) (l₁ l₂ : List Peer), l₁.Perm l₂ →
      (∀ q ∈ l₁, (0:Int) ≤ q.index) →
      aggsOf (register_peers p l₁) = aggsOf (register_peers p l₂) := by
    intro p l₁ l₂ hp hpos
    rw [(register_peers_aggs l₁ p).1, (register_peers_aggs l₂ p).1]
    refine regAgg_fold_perm p.test_port_index (hp.map Peer.index) ?_ (aggsOf p)
    intro x hx
    simp only [List.mem_map] at hx
    obtain ⟨q, hq, rfl⟩ := hx
    exact hpos q hq
  refine ⟨fun p l₁ l₂ hp _ hpos => main p l₁ l₂ hp hpos, ?_⟩
  intro l hl
  have hpos : ∀ q ∈ l, (0:Int) ≤ q.index := by
    have h519 : ∀ q ∈ peers519, (0:Int) ≤ q.index := by decide
    exact fun q hq => h519 q (hl.mem_iff.mp hq)
  rw [main props3 l peers519 hl hpos]
  decide

/-- Witness for C7: a concrete permuted order of the {5, 1, 9} peers gives
the claimed aggregates, and the general part applied at concrete lists. -/
theorem C7_register_order_independent_witness :
    aggsOf (register_peers props3 [⟨2, 9⟩, ⟨1, 1⟩, ⟨0, 5⟩]) = ⟨2, 3, 1, 2, 1, 9⟩ ∧
    aggsOf (register_peers props3 [⟨1, 1⟩, ⟨0, 5⟩, ⟨2, 9⟩]) =
      aggsOf (register_peers props3 peers519) :=
  ⟨C7_register_order_independent.2 [⟨2, 9⟩, ⟨1, 1⟩, ⟨0, 5⟩] (by decide),
   C7_register_order_independent.1 props3 [⟨1, 1⟩, ⟨0, 5⟩, ⟨2, 9⟩] peers519
     (by decide) (by decide) (by decide)⟩

theorem csum_step_le {acc w : Nat} (ha : acc ≤ 0xFFFF) (hw : w ≤ 0xFFFF) :
    csum_step acc w ≤ 0xFFFF := by
  unfold csum_step
  dsimp only
  split_ifs <;> omega

theorem csum_step_modeq {acc w : Nat} (ha : acc ≤ 0xFFFF) (hw : w ≤ 0xFFFF) :
    csum_step acc w % 0xFFFF = (acc + w) % 0xFFFF := by
  unfold csum_step
  dsimp only
  split_ifs <;> omega

theorem csum_step_pos {acc w : Nat} (ha : acc ≤ 0xFFFF) (hw : w ≤ 0xFFFF)
    (h : 0 < acc ∨ 0 < w) : 0 < csum_step acc w := by
  unfold csum_step
  dsimp only
  split_ifs <;> omega

theorem csum_fold_le {ws : List Nat} (hws : ∀ w ∈ ws, w ≤ 0xFFFF) :
    ∀ {acc : Nat}, acc ≤ 0xFFFF → ws.foldl csum_step acc ≤ 0xFFFF := by
  induction ws with
  | nil => intro acc ha; exact ha
  | cons w ws ih =>
      intro acc ha
      simp only [List.foldl]
      exact ih (fun x hx => hws x (List.mem_cons_of_mem _ hx))
        (csum_step_le ha (hws w (List.mem_cons_self _ _)))

theorem csum_fold_modeq {ws : List Nat} (hws : ∀ w ∈ ws, w ≤ 0xFFFF) :
    ∀ {acc : Nat}, acc ≤ 0xFFFF →
      ws.foldl csum_step acc % 0xFFFF = (acc + ws.sum) % 0xFFFF := by
  induction ws with
  | nil => intro acc _; simp
  | cons w ws ih =>
      intro acc ha
      simp only [List.foldl, List.sum_cons]
      have hw := hws w (List.mem_cons_self _ _)
      have h₁ := csum_step_modeq ha hw
      have h₂ := ih (fun x hx => hws x (List.mem_cons_of_mem _ hx))
        (csum_step_le ha hw)
      omega

theorem csum_fold_pos {ws : List Nat} (hws : ∀ w ∈ ws, w ≤ 0xFFFF) :
    ∀ {acc : Nat}, acc ≤ 0xFFFF → 0 < acc → 0 < ws.foldl csum_step acc := by
  induction ws with
  | nil => intro acc _ h; exact h
  | cons w ws ih =>
      intro acc ha hpos
      simp only [List.foldl]
      exact ih (fun x hx => hws x (List.mem_cons_of_mem _ hx))
        (csum_step_le ha (hws w (List.mem_cons_self _ _)))
        (csum_step_pos ha (hws w (List.mem_cons_self _ _)) (Or.inl hpos))

theorem csum_fold_pos_of_mem {v : Nat} (hvpos : 0 < v) :
    ∀ (ws : List Nat), (∀ w ∈ ws, w ≤ 0xFFFF) → v ∈ ws →
      ∀ {acc : Nat}, acc ≤ 0xFFFF → 0 < ws.foldl csum_step acc := by
  intro ws
  induction ws with
  | nil => intro _ hv; cases hv
  | cons w ws ih =>
      intro hws hv acc ha
      simp only [List.foldl]
      have hw := hws w (List.mem_cons_self _ _)
      have hws₂ : ∀ x ∈ ws, x ≤ 0xFFFF := fun x hx => hws x (List.mem_cons_of_mem _ hx)
      rcases List.mem_cons.mp hv with rfl | hv₂
      · exact csum_fold_pos hws₂ (csum_step_le ha hw) (csum_step_pos ha hw (Or.inr hvpos))
      · exact ih hws₂ hv₂ (csum_step_le ha hw)

theorem toWords_total_aux (n : Nat) :
    ∀ l : List Nat, l.length ≤ n → l.length % 2 = 0 →
      ∃ ws, toWords l = some ws ∧ 2 * ws.length = l.length ∧
        ((∀ x ∈ l, x < 256) → ∀ w ∈ ws, w ≤ 0xFFFF) := by
  induction n with
  | zero =>
      intro l hl _
      have hnil : l = [] := List.eq_nil_of_length_eq_zero (Nat.le_zero.mp hl)
      subst hnil
      exact ⟨[], rfl, rfl, fun _ w hw => absurd hw (List.not_mem_nil w)⟩
  | succ n ih =>
      intro l hl hev
      match l with
      | [] => exact ⟨[], rfl, rfl, fun _ w hw => absurd hw (List.not_mem_nil w)⟩
      | [a] => exact absurd hev (by simp)
      | a :: b :: rest =>
          have h₁ : rest.length ≤ n := by simp at hl; omega
          have h₂ : rest.length % 2 = 0 := by simp at hev; omega
          obtain ⟨ws, hws, hlen, hbound⟩ := ih rest h₁ h₂
          refine ⟨(a * 256 + b) :: ws, by simp [toWords, hws], by simp; omega, ?_⟩
          intro hb w hw
          rcases List.mem_cons.mp hw with rfl | hw₂
          · have ha := hb a (by simp)
            have hbb := hb b (by simp)
            omega
          · exact hbound (fun x hx => hb x (by simp [hx])) w hw₂

theorem toWords_total (l : List Nat) (hev : l.length % 2 = 0) :
    ∃ ws, toWords l = some ws ∧ 2 * ws.length = l.length ∧
      ((∀ x ∈ l, x < 256) → ∀ w ∈ ws, w ≤ 0xFFFF) :=
  toWords_total_aux l.length l le_rfl hev

theorem toWords_append_aux (n : Nat) :
    ∀ (l₁ l₂ w₁ : List Nat), l₁.length ≤ n → toWords l₁ = some w₁ →
      toWords (l₁ ++ l₂) = (toWords l₂).map (fun w₂ => w₁ ++ w₂) := by
  induction n with
  | zero =>
      intro l₁ l₂ w₁ hl h
      have hnil : l₁ = [] := List.eq_nil_of_length_eq_zero (Nat.le_zero.mp hl)
      subst hnil
      simp only [toWords, Option.some.injEq] at h
      subst h
      cases hx : toWords l₂ <;> simp [hx]
  | succ n ih =>
      intro l₁ l₂ w₁ hl h
      match l₁ with
      | [] =>
          simp only [toWords, Option.some.injEq] at h
          subst h
          cases hx : toWords l₂ <;> simp [hx]
      | [a] => simp [toWords] at h
      | a :: b :: rest =>
          simp only [toWords] at h
          cases hr : toWords rest with
          | none => rw [hr] at h; cases h
          | some wr =>
              rw [hr] at h
              simp only [Option.map_some', Option.some.injEq] at h
              subst h
              have hrec := ih rest l₂ wr (by simp at hl; omega) hr
              cases hx : toWords l₂ with
              | none => simp [List.cons_append, toWords, hrec, hx]
              | some w₂ => simp [List.cons_append, toWords, hrec, hx]

theorem toWords_append (l₁ l₂ w₁ : List Nat) (h : toWords l₁ = some w₁) :
    toWords (l₁ ++ l₂) = (toWords l₂).map (fun w₂ => w₁ ++ w₂) :=
  toWords_append_aux l₁.length l₁ l₂ w₁ le_rfl h

theorem set_append_cons (l₁ : List Nat) (p v : Nat) (l₂ : List Nat) :
    (l₁ ++ p :: l₂).set l₁.length v = l₁ ++ v :: l₂ := by
  induction l₁ with
  | nil => rfl
  | cons x t ih => simp only [List.cons_append, List.length_cons, List.set_cons_succ, ih]

theorem listSet?_append (l₁ : List Nat) (p v : Nat) (l₂ : List Nat) :
    listSet? (l₁ ++ p :: l₂) l₁.length v = some (l₁ ++ v :: l₂) := by
  unfold listSet?
  rw [if_pos (by simp only [List.length_append, List.length_cons]; omega)]
  rw [set_append_cons]

theorem natToBytes_lt : ∀ (len n : Nat), ∀ x ∈ natToBytes n len, x < 256 := by
  intro len
  induction len with
  | zero => intro n x hx; cases hx
  | succ len ih =>
      intro n x hx
      simp only [natToBytes, List.mem_append, List.mem_singleton] at hx
      rcases hx with hx | hx
      · exact ih _ x hx
      · omega

theorem serialize_bytes_lt (s : Segment) (rand : Int) (B : List Nat)
    (hB : serialize_fields s rand = some B) : ∀ x ∈ B, x < 256 := by
  unfold serialize_fields at hB
  split at hB
  · cases hB
  · unfold bitstring_to_bytes at hB
    split_ifs at hB
    cases hB
    exact natToBytes_lt _ _

theorem wrap_add_16_roundtrip (data : List Nat) (k : Nat)
    (hb : ∀ x ∈ data, x < 256) (heven : data.length % 2 = 0)
    (hk : k % 2 = 0) (hlt : k + 1 < data.length) :
    ∃ r, wrap_add_16 data k = some r ∧ internet_checksum r = some 0 := by
  obtain ⟨l₁, p, q, l₂, hdata, hlen1⟩ :
      ∃ (l₁ : List Nat) (p q : Nat) (l₂ : List Nat),
        data = l₁ ++ p :: q :: l₂ ∧ l₁.length = k := by
    have h1 : k < data.length := by omega
    have e2 := List.drop_eq_getElem_cons h1
    have e3 := List.drop_eq_getElem_cons hlt
    refine ⟨data.take k, data[k], data[k + 1], data.drop (k + 2), ?_, ?_⟩
    · conv_lhs => rw [← List.take_append_drop k data]
      rw [e2, e3]
    · rw [List.length_take]
      omega
  subst hdata
  subst hlen1
  have hb1 : ∀ x ∈ l₁, x < 256 := fun x hx => hb x (by simp [hx])
  have hb2 : ∀ x ∈ l₂, x < 256 := fun x hx => hb x (by simp [hx])
  have hbp : p < 256 := hb p (by simp)
  have hbq : q < 256 := hb q (by simp)
  have hev2 : l₂.length % 2 = 0 := by
    simp only [List.length_append, List.length_cons] at heven
    omega
  obtain ⟨w₁, hw₁, hwlen₁, hwb₁⟩ := toWords_total l₁ hk
  obtain ⟨w₂, hw₂, hwlen₂, hwb₂⟩ := toWords_total l₂ hev2
  have hwb₁ := hwb₁ hb1
  have hwb₂ := hwb₂ hb2
  have hset1 : listSet? (l₁ ++ p :: q :: l₂) l₁.length 0 = some (l₁ ++ 0 :: q :: l₂) :=
    listSet?_append l₁ p 0 (q :: l₂)
  have hset2 : listSet? (l₁ ++ 0 :: q :: l₂) (l₁.length + 1) 0 =
      some (l₁ ++ 0 :: 0 :: l₂) := by
    have h := listSet?_append (l₁ ++ [0]) q 0 l₂
    simpa [List.append_assoc] using h
  have hwz : toWords (l₁ ++ 0 :: 0 :: l₂) = some (w₁ ++ 0 :: w₂) := by
    rw [toWords_append l₁ (0 :: 0 :: l₂) w₁ hw₁]
    simp [toWords, hw₂]
  have hbz : ∀ w ∈ w₁ ++ 0 :: w₂, w ≤ 0xFFFF := by
    intro w hw
    rcases List.mem_append.mp hw with hw | hw
    · exact hwb₁ w hw
    · rcases List.mem_cons.mp hw with rfl | hw
      · omega
      · exact hwb₂ w hw
  have hcb : (w₁ ++ 0 :: w₂).foldl csum_step 0 ≤ 0xFFFF := csum_fold_le hbz (by omega)
  have hset3 : listSet? (l₁ ++ 0 :: 0 :: l₂) l₁.length
      (0xFF - (w₁ ++ 0 :: w₂).foldl csum_step 0 / 256) =
      some (l₁ ++ (0xFF - (w₁ ++ 0 :: w₂).foldl csum_step 0 / 256) :: 0 :: l₂) :=
    listSet?_append l₁ 0 _ (0 :: l₂)
  have hset4 : listSet? (l₁ ++ (0xFF - (w₁ ++ 0 :: w₂).foldl csum_step 0 / 256) :: 0 :: l₂)
      (l₁.length + 1) (0xFF - (w₁ ++ 0 :: w₂).foldl csum_step 0 % 256) =
      some (l₁ ++ (0xFF - (w₁ ++ 0 :: w₂).foldl csum_step 0 / 256) ::
        (0xFF - (w₁ ++ 0 :: w₂).foldl csum_step 0 % 256) :: l₂) := by
    have h := listSet?_append (l₁ ++ [0xFF - (w₁ ++ 0 :: w₂).foldl csum_step 0 / 256]) 0
      (0xFF - (w₁ ++ 0 :: w₂).foldl csum_step 0 % 256) l₂
    simpa [List.append_assoc] using h
  refine ⟨l₁ ++ (0xFF - (w₁ ++ 0 :: w₂).foldl csum_step 0 / 256) ::
      (0xFF - (w₁ ++ 0 :: w₂).foldl csum_step 0 % 256) :: l₂, ?_, ?_⟩
  · unfold wrap_add_16
    simp only [hset1, hset2, hwz, hset3, hset4, Option.bind_eq_bind, Option.some_bind]
  · set c := (w₁ ++ 0 :: w₂).foldl csum_step 0 with hc
    have hv : (0xFF - c / 256) * 256 + (0xFF - c % 256) = 0xFFFF - c := by omega
    have hwr : toWords (l₁ ++ (0xFF - c / 256) :: (0xFF - c % 256) :: l₂) =
        some (w₁ ++ (0xFFFF - c) :: w₂) := by
      rw [toWords_append l₁ _ w₁ hw₁]
      simp [toWords, hw₂, hv]
    unfold internet_checksum
    rw [hwr]
    simp only [Option.map_some', Option.some.injEq]
    have hbz2 : ∀ w ∈ w₁ ++ (0xFFFF - c) :: w₂, w ≤ 0xFFFF := by
      intro w hw
      rcases List.mem_append.mp hw with hw | hw
      · exact hwb₁ w hw
      · rcases List.mem_cons.mp hw with rfl | hw
        · omega
        · exact hwb₂ w hw
    have hc2le : (w₁ ++ (0xFFFF - c) :: w₂).foldl csum_step 0 ≤ 0xFFFF :=
      csum_fold_le hbz2 (by omega)
    have hmod2 : (w₁ ++ (0xFFFF - c) :: w₂).foldl csum_step 0 % 0xFFFF =
        (0 + (w₁ ++ (0xFFFF - c) :: w₂).sum) % 0xFFFF := csum_fold_modeq hbz2 (by omega)
    have hmod1 : c % 0xFFFF = (0 + (w₁ ++ 0 :: w₂).sum) % 0xFFFF := by
      rw [hc]
      exact csum_fold_modeq hbz (by omega)
    have hsum2 : (w₁ ++ (0xFFFF - c) :: w₂).sum = w₁.sum + ((0xFFFF - c) + w₂.sum) := by
      simp [List.sum_append]
    have hsum1 : (w₁ ++ 0 :: w₂).sum = w₁.sum + w₂.sum := by
      simp [List.sum_append]
    by_cases hcase : c = 0xFFFF
    · have hzero : (0xFFFF : Nat) - c = 0 := by omega
      rw [hzero, ← hc, hcase]
    · have hvpos : 0 < 0xFFFF - c := by omega
      have hpos : 0 < (w₁ ++ (0xFFFF - c) :: w₂).foldl csum_step 0 :=
        csum_fold_pos_of_mem hvpos _ hbz2 (by simp) (by omega)
      omega

/-- C3 counterexample: for a segment whose checksum_offset is the odd
offset 1 (a 32-bit single-field segment serializing to 0x12 0xAA 0xBB 0x34),
prepare() writes the complement bytes at offsets 1 and 2 — straddling two
16-bit words — and recomputing the Internet checksum over the returned
buffer yields 0x21DE, not 0, so the claimed round-trip law fails as stated
for every segment. -/
theorem C3_checksum_roundtrip_counterexample :
    segOdd.checksum_offset = some 1 ∧
    Segment.prepare segOdd 0 = some [0x12, 0xED, 0xCB, 0x34] ∧
    internet_checksum [0x12, 0xED, 0xCB, 0x34] = some 0x21DE ∧
    internet_checksum [0x12, 0xED, 0xCB, 0x34] ≠ some 0 := by
  refine ⟨rfl, by decide, by decide, by decide⟩

/-- C3 (amended): for every Segment whose checksum_offset is a non-zero
even byte offset k with k+1 inside the serialized buffer and an even buffer
length, prepare() zeroes the two bytes at k, folds the big-endian 16-bit
one's-complement sum, writes the complement back at k big-endian, and
recomputing the 16-bit Internet checksum over the whole returned buffer
yields 0.  (A zero offset is skipped — Python falsiness — and an odd offset
or odd buffer length breaks the law, see the counterexample.) -/
theorem C3_checksum_roundtrip (s : Segment) (rand : Int) (k : Nat) (B : List Nat)
    (hco : s.checksum_offset = some k) (hk0 : k ≠ 0) (hke : k % 2 = 0)
    (hB : serialize_fields s rand = some B)
    (heven : B.length % 2 = 0) (hlt : k + 1 < B.length) :
    ∃ r, Segment.prepare s rand = some r ∧ internet_checksum r = some 0 := by
  obtain ⟨r, hr, hr0⟩ :=
    wrap_add_16_roundtrip B k (serialize_bytes_lt s rand B hB) heven hke hlt
  refine ⟨r, ?_, hr0⟩
  unfold Segment.prepare
  rw [hB, hco]
  simp [hk0, hr]

/-- Witness for C3: the even-offset segment (checksum_offset 2, buffer
0x12 0xAA 0xBB 0x34) satisfies every hypothesis and its prepared buffer
re-checksums to 0. -/
theorem C3_checksum_roundtrip_witness :
    ∃ r, Segment.prepare segEven 0 = some r ∧ internet_checksum r = some 0 :=
  C3_checksum_roundtrip segEven 0 2 [0x12, 0xAA, 0xBB, 0x34] rfl (by decide)
    (by decide) (by decide) (by decide) (by decide)

end Plugin2544
